import Mathlib

/-!
A shallow embedding of the go-config recursive configuration engine
(config.go, error.go) and proofs about its Read/Write/ReadString contract.

Modelling conventions:
* Go values traversed by `reflect` are embedded as the inductive `Val`;
  the static Go types relevant to conversion are the inductive `Ty`.
  The value universe covers the kinds the engine distinguishes:
  strings, all integer kinds, booleans, structs, string-keyed maps,
  pointers, empty interfaces, and the invalid zero `reflect.Value`
  (obtained from `Elem()` of a nil pointer / nil interface).
  Floats, complex numbers and unsupported kinds (func, chan, slice, ...)
  are outside the modelled universe; no claim below depends on them.
* Field and entry sequences are first-order list types (`Fields`,
  `Entries`) mutual with `Val`, and optional inners are `Box`; Go maps
  are association sequences in a fixed order, Go's randomized iteration
  order is not modelled: the first entry whose key folds equal is "the
  first match" of the `MapRange` loop.
* `strings.EqualFold` is modelled by ASCII case folding (`eqFold`); all
  key names in the claims are ASCII.
* Machine integers carry their kind and an unbounded `Int` value;
  conversions wrap two's-complement style, mirroring Go conversions.
* The shared mutable error of error.go (`ConfigurationError.From`) is
  embedded as an immutable value (`KeyErr.From`) returned up the stack.
* A Go runtime panic (e.g. `SetMapIndex` with a non-assignable value)
  is the explicit outcome `WRes.crash`.
-/

namespace GoConfig

/-- The integer kinds of the reflect universe modelled here. -/
inductive IntKind where
  | i | i8 | i16 | i32 | i64 | u | u8 | u16 | u32 | u64
deriving DecidableEq, Repr

/-- Bit width of an integer kind (platform int/uint modelled as 64-bit). -/
def IntKind.width : IntKind → Nat
  | .i => 64 | .i8 => 8 | .i16 => 16 | .i32 => 32 | .i64 => 64
  | .u => 64 | .u8 => 8 | .u16 => 16 | .u32 => 32 | .u64 => 64

def IntKind.signed : IntKind → Bool
  | .i | .i8 | .i16 | .i32 | .i64 => true
  | .u | .u8 | .u16 | .u32 | .u64 => false

/-- The reflect.Kind string of an integer kind. -/
def IntKind.name : IntKind → String
  | .i => "int" | .i8 => "int8" | .i16 => "int16" | .i32 => "int32" | .i64 => "int64"
  | .u => "uint" | .u8 => "uint8" | .u16 => "uint16" | .u32 => "uint32" | .u64 => "uint64"

/-- The value held by an integer of kind `k` after a Go conversion of `n`
(two's-complement wraparound). -/
def IntKind.wrap (k : IntKind) (n : Int) : Int :=
  let m := n % ((2 ^ k.width : Nat) : Int)
  if k.signed ∧ m ≥ ((2 ^ (k.width - 1) : Nat) : Int) then m - ((2 ^ k.width : Nat) : Int)
  else m

mutual
/-- Static Go types, as far as the engine's conversions inspect them. -/
inductive Ty where
  | str
  | int (k : IntKind)
  | bool
  | struct' (fields : TyFields)
  | map (elem : Ty)
  | ptr (elem : Ty)
  | iface

/-- The (name, type) field sequence of a struct type. -/
inductive TyFields where
  | nil
  | cons (name : String) (ty : Ty) (rest : TyFields)
end

deriving instance DecidableEq for Ty, TyFields

/-- Model of reflect.Type.String(), used in ErrIncompatibleType messages.
Struct types are abbreviated; only the shape matters for the claims. -/
def Ty.string' : Ty → String
  | .str => "string"
  | .int k => k.name
  | .bool => "bool"
  | .struct' _ => "struct {...}"
  | .map t => "map[string]" ++ t.string'
  | .ptr t => "*" ++ t.string'
  | .iface => "interface {}"

mutual
/-- Runtime values of the modelled reflect universe.  A struct value
keeps, per field, the field name, its static type and the current value.
`Box.empty` inners are Go's nil pointers and nil interfaces,
`MapData.nilMap` is a nil map.  `invalid` is the zero reflect.Value. -/
inductive Val where
  | vStr (s : String)
  | vInt (k : IntKind) (n : Int)
  | vBool (b : Bool)
  | vStruct (fields : Fields)
  | vMap (elem : Ty) (data : MapData)
  | vPtr (elem : Ty) (inner : Box)
  | vIface (inner : Box)
  | invalid

/-- The (name, static type, value) field sequence of a struct value. -/
inductive Fields where
  | nil
  | cons (name : String) (ty : Ty) (val : Val) (rest : Fields)

/-- A map value: nil, or a sequence of entries. -/
inductive MapData where
  | nilMap
  | entries (es : Entries)

/-- The (key, value) entry sequence of a map. -/
inductive Entries where
  | nil
  | cons (key : String) (val : Val) (rest : Entries)

/-- An optional pointed-to / boxed value. -/
inductive Box where
  | empty
  | full (v : Val)
end

deriving instance DecidableEq for Val, Fields, MapData, Entries, Box

/-- Model of reflect.Kind.String() for a value. -/
def Val.kind : Val → String
  | .vStr _ => "string"
  | .vInt k _ => k.name
  | .vBool _ => "bool"
  | .vStruct _ => "struct"
  | .vMap _ _ => "map"
  | .vPtr _ _ => "ptr"
  | .vIface _ => "interface"
  | .invalid => "invalid"

/-- The static field list of a struct value's type. -/
def Fields.tys : Fields → TyFields
  | .nil => .nil
  | .cons n t _ rest => .cons n t rest.tys

/-- Model of reflect.Value.Type(); the invalid value has no type
(reflect panics there). -/
def Val.ty : Val → Option Ty
  | .vStr _ => some .str
  | .vInt k _ => some (.int k)
  | .vBool _ => some .bool
  | .vStruct fields => some (.struct' fields.tys)
  | .vMap t _ => some (.map t)
  | .vPtr t _ => some (.ptr t)
  | .vIface _ => some .iface
  | .invalid => none

/-- Model of reflect.Value.Interface() followed by reflect.ValueOf: an
interface collapses to its dynamic value, a nil interface to the invalid
value.  (Go interfaces never directly nest, so the recursion is
harmless.) -/
def Val.toInterface : Val → Val
  | .vIface (.full x) => x.toInterface
  | .vIface .empty => .invalid
  | .vStr s => .vStr s
  | .vInt k n => .vInt k n
  | .vBool b => .vBool b
  | .vStruct fields => .vStruct fields
  | .vMap t es => .vMap t es
  | .vPtr t x => .vPtr t x
  | .invalid => .invalid

mutual
/-- Model of reflect.Indirect(reflect.New(t)): the zero value of type t.
The zero map and zero pointer are nil. -/
def zeroVal : Ty → Val
  | .str => .vStr ""
  | .int k => .vInt k 0
  | .bool => .vBool false
  | .struct' fs => .vStruct (zeroFields fs)
  | .map t => .vMap t .nilMap
  | .ptr t => .vPtr t .empty
  | .iface => .vIface .empty

def zeroFields : TyFields → Fields
  | .nil => .nil
  | .cons n t rest => .cons n t (zeroVal t) (zeroFields rest)
end

/-- ASCII lower-casing of one character. -/
def lowerChar (c : Char) : Char :=
  if 'A' ≤ c ∧ c ≤ 'Z' then Char.ofNat (c.toNat + 32) else c

/-- Model of strings.EqualFold restricted to ASCII folding. -/
def eqFold (a b : String) : Bool :=
  a.data.map lowerChar == b.data.map lowerChar

/-- Splitting of a character list at every '.', keeping empty pieces;
`strings.Split` semantics for the separator ".". -/
def splitChars : List Char → List (List Char)
  | [] => [[]]
  | c :: rest =>
    if c = '.' then [] :: splitChars rest
    else
      match splitChars rest with
      | [] => [[c]]
      | g :: gs => (c :: g) :: gs

/-- Model of strings.Split(key, ".") as used by Read and Write. -/
def splitKey (s : String) : List String :=
  (splitChars s.data).map (fun cs => String.mk cs)

/-- The dotted rendering of a segment list (what repeated `From` calls
accumulate into the error's key). -/
def dotted : List String → String
  | [] => ""
  | [a] => a
  | a :: rest => a ++ "." ++ dotted rest

/-- The KeyError family of error.go: ErrNoSuchKey, ErrUnhandledKind and
ErrIncompatibleType, each over a ConfigurationError carrying the keys
string. -/
inductive KeyErr where
  | errNoSuchKey (keys : String)
  | errUnhandledKind (kind : String) (keys : String)
  | errIncompatibleType (type' : String) (keys : String)
deriving DecidableEq, Repr

/-- ConfigurationError.Key. -/
def KeyErr.Key : KeyErr → String
  | .errNoSuchKey k => k
  | .errUnhandledKind _ k => k
  | .errIncompatibleType _ k => k

/-- ConfigurationError.From: prepend a consumed segment to the keys,
embedded immutably. -/
def KeyErr.From : KeyErr → String → KeyErr
  | .errNoSuchKey k, p => .errNoSuchKey (p ++ "." ++ k)
  | .errUnhandledKind kd k, p => .errUnhandledKind kd (p ++ "." ++ k)
  | .errIncompatibleType t k, p => .errIncompatibleType t (p ++ "." ++ k)

/-- Go's integer-to-string conversion (rune conversion): the UTF-8 string
of the code point, or the replacement character when invalid. -/
def runeString (n : Int) : String :=
  if 0 ≤ n ∧ n < 1114112 ∧ ¬(55296 ≤ n ∧ n < 57344) then
    String.mk [Char.ofNat n.toNat]
  else "�"

/-- Model of v.CanConvert(t) / v.Convert(t) over the modelled universe:
`some w` is the converted value, `none` means CanConvert is false.
Notable Go rules kept: every integer kind converts to every integer kind
(wrapping) and to string (rune conversion); strings do not convert to
integers; everything converts to the empty interface (boxing);
composite types convert only to their identical type.  On the invalid
zero Value Go's CanConvert panics (Value.Type on zero Value); the write
algorithm models that panic in `convertAssign` before consulting this
total function, whose `.invalid` arm is therefore unreachable from
`write`. -/
def convertTo : Val → Ty → Option Val
  | .invalid, _ => none
  | v, .iface => some (.vIface (.full v))
  | .vStr s, .str => some (.vStr s)
  | .vInt _ n, .int k2 => some (.vInt k2 (k2.wrap n))
  | .vInt _ n, .str => some (.vStr (runeString n))
  | .vBool b, .bool => some (.vBool b)
  | .vStruct fields, .struct' fs =>
    if fields.tys = fs then some (.vStruct fields) else none
  | .vMap t es, .map t2 => if t = t2 then some (.vMap t es) else none
  | .vPtr t x, .ptr t2 => if t = t2 then some (.vPtr t x) else none
  | _, _ => none

/-- Model of Go assignability as SetMapIndex checks it: identical type,
or storing into an empty-interface-valued map.  SetMapIndex treats the
zero Value specially (it deletes the key, see `setMapStore`), so this
check is never reached with the invalid value from `write`. -/
def assignableTo (v : Val) (t : Ty) : Bool :=
  match v.ty with
  | none => false
  | some tv => if tv = t then true else if t = Ty.iface then true else false

/-- What SetMapIndex actually stores in a map with element type `t`:
a value stored into an interface-valued map is boxed. -/
def wrapStore (v : Val) (t : Ty) : Val :=
  if t = Ty.iface then .vIface (.full v) else v

/-- First field whose name folds equal (the struct loop of config.go). -/
def findField (name : String) : Fields → Option (String × Ty × Val)
  | .nil => none
  | .cons n t v rest => if eqFold name n then some (n, t, v) else findField name rest

/-- Replace the value of the first field whose name folds equal. -/
def setField (name : String) (w : Val) : Fields → Fields
  | .nil => .nil
  | .cons n t v rest =>
    if eqFold name n then .cons n t w rest else .cons n t v (setField name w rest)

/-- First map entry whose key folds equal (the MapRange loop of
config.go). -/
def findFold (name : String) : Entries → Option (String × Val)
  | .nil => none
  | .cons k v rest => if eqFold name k then some (k, v) else findFold name rest

/-- Replace the value of the first entry whose key folds equal, keeping
the original key (SetMapIndex under i.Key()). -/
def setFold (name : String) (w : Val) : Entries → Entries
  | .nil => .nil
  | .cons k v rest =>
    if eqFold name k then .cons k w rest else .cons k v (setFold name w rest)

/-- Remove the first entry whose key folds equal (SetMapIndex with the
zero Value deletes the matched key). -/
def delFold (name : String) : Entries → Entries
  | .nil => .nil
  | .cons k v rest =>
    if eqFold name k then rest else .cons k v (delFold name rest)

/-- Append one entry at the end (SetMapIndex under a fresh key). -/
def Entries.snoc (k : String) (w : Val) : Entries → Entries
  | .nil => .cons k w .nil
  | .cons k0 v rest => .cons k0 v (rest.snoc k w)

/-- The key sequence of a map's entries. -/
def Entries.keys : Entries → List String
  | .nil => []
  | .cons k _ rest => k :: rest.keys

/-- Outcome of the recursive write: the replacement value, a KeyError, or
a Go runtime panic. -/
inductive WRes where
  | ok (v : Val)
  | err (e : KeyErr)
  | crash (msg : String)
deriving DecidableEq

/-- The CanConvert-then-Convert step at a struct-field (config.go lines
94-95, 103) or map-new-entry (lines 140-143) assignment site.  Go's
CanConvert calls Value.Type, which panics on the zero Value (a written
nil), so the check itself crashes there; otherwise a non-convertible
value yields ErrIncompatibleType with the target type and the local
segment name. -/
def convertAssign (v : Val) (t : Ty) (name : String) : WRes :=
  match v with
  | .invalid => .crash "reflect: call of reflect.Value.Type on zero Value"
  | v =>
    match convertTo v t with
    | none => .err (.errIncompatibleType t.string' name)
    | some w => .ok w

/-- The SetMapIndex store-back at a case-insensitively matched map entry
(config.go line 128).  As documented for SetMapIndex: the zero Value (a
written nil) deletes the matched key and the call succeeds; otherwise a
non-assignable value panics, and an assignable one is stored back under
the original matched key. -/
def setMapStore (e : Val) (et : Ty) (name : String) (es : Entries) : WRes :=
  match e with
  | .invalid => .ok (.vMap et (.entries (delFold name es)))
  | e =>
    if assignableTo e et then
      .ok (.vMap et (.entries (setFold name (wrapStore e et) es)))
    else
      .crash ("reflect.Value.SetMapIndex: value is not assignable to type " ++ et.string')

/-- Model of config.write (config.go lines 54-149): recursively sets a
key's value, returning the modified element.  Each arm follows the
corresponding switch case of the source; the nil-map arm is the
MakeMap-then-miss path specialised to an empty entry sequence.

One Go effect is not representable in this value-level embedding: the
matched-map-entry store (SetMapIndex) mutates the shared Go map in
place, while this function rebuilds the entry sequence functionally.
In the program that in-place mutation persists even when an enclosing
frame fails afterwards; see the C2 evaluation below for the resulting
divergence from write-failure atomicity. -/
def write (key : List String) (element : Val) (value : Val) : WRes :=
  match key, element with
  | [], _ => .ok value.toInterface
  | name :: key', .vIface (.full x) =>
    match write (name :: key') x value with
    | .ok e => .ok e.toInterface
    | r => r
  | name :: key', .vIface .empty =>
    match write (name :: key') .invalid value with
    | .ok e => .ok e.toInterface
    | r => r
  | name :: key', .vPtr _ (.full x) =>
    match write (name :: key') x value with
    | .ok e =>
      match e.ty with
      | some te => .ok (.vPtr te (.full e))
      | none => .crash "reflect: Type of invalid value"
    | r => r
  | name :: key', .vPtr _ .empty =>
    match write (name :: key') .invalid value with
    | .ok e =>
      match e.ty with
      | some te => .ok (.vPtr te (.full e))
      | none => .crash "reflect: Type of invalid value"
    | r => r
  | name :: key', .vStruct fields =>
    match findField name fields with
    | some (_, ftype, fval) =>
      match write key' fval value with
      | .err e => .err (e.From name)
      | .crash m => .crash m
      | .ok v =>
        match convertAssign v ftype name with
        | .ok w => .ok (.vStruct (setField name w fields))
        | r => r
    | none => .err (.errNoSuchKey name)
  | name :: key', .vMap et .nilMap =>
    match write key' (zeroVal et) value with
    | .err e => .err (e.From name)
    | .crash m => .crash m
    | .ok e =>
      match convertAssign e et name with
      | .ok w => .ok (.vMap et (.entries (.cons name w .nil)))
      | r => r
  | name :: key', .vMap et (.entries es) =>
    match findFold name es with
    | some (_, v0) =>
      match write key' v0 value with
      | .err e => .err (e.From name)
      | .crash m => .crash m
      | .ok e => setMapStore e et name es
    | none =>
      match write key' (zeroVal et) value with
      | .err e => .err (e.From name)
      | .crash m => .crash m
      | .ok e =>
        match convertAssign e et name with
        | .ok w => .ok (.vMap et (.entries (es.snoc name w)))
        | r => r
  | name :: _, v => .err (.errUnhandledKind v.kind name)
termination_by (key.length, sizeOf element)

/-- Model of config.read (config.go lines 159-217): recursively gets a
key's value. -/
def read (key : List String) (element : Val) : Except KeyErr Val :=
  match key, element with
  | [], _ => .ok element.toInterface
  | name :: key', .vIface (.full x) => read (name :: key') x
  | name :: key', .vIface .empty => read (name :: key') .invalid
  | name :: key', .vPtr _ (.full x) => read (name :: key') x
  | name :: key', .vPtr _ .empty => read (name :: key') .invalid
  | name :: key', .vStruct fields =>
    match findField name fields with
    | some (_, _, fval) =>
      match read key' fval with
      | .error e => .error (e.From name)
      | .ok v => .ok v
    | none => .error (.errNoSuchKey name)
  | name :: _, .vMap _ .nilMap => .error (.errNoSuchKey name)
  | name :: key', .vMap _ (.entries es) =>
    match findFold name es with
    | some (_, v0) =>
      match read key' v0 with
      | .error e => .error (e.From name)
      | .ok v => .ok v
    | none => .error (.errNoSuchKey name)
  | name :: _, v => .error (.errUnhandledKind v.kind name)
termination_by (key.length, sizeOf element)

/-- The config struct: a handle on one root value (the Data field). -/
structure config where
  Data : Val
deriving DecidableEq

/-- Model of config.Write (config.go lines 41-50).  Returns the outcome
together with the receiver after the call: the root binding is replaced
only when the recursive write succeeded.  Caveat: on failure the Go
program leaves the root *binding* unchanged, but in-place SetMapIndex
mutations of shared maps performed below the failure point survive; a
value-level embedding cannot represent that aliasing, so the returned
config understates the damage (see the C2 evaluation). -/
def config.Write (c : config) (key : String) (value : Val) : WRes × config :=
  match write (splitKey key) c.Data.toInterface value with
  | .ok v => (.ok v, ⟨v.toInterface⟩)
  | .err e => (.err e, c)
  | .crash m => (.crash m, c)

/-- Model of config.Read (config.go lines 152-156). -/
def config.Read (c : config) (key : String) : Except KeyErr Val :=
  read (splitKey key) c.Data.toInterface

/-- Model of config.ReadString (config.go lines 220-250).  The switch
lists exactly the kinds the source lists: string; Int, Int8, Int32 and
Int64 (note: not Int16, not the unsigned kinds); bool; otherwise a
generic conversion to string is attempted.  Float and complex kinds are
outside the modelled value universe.  (Projecting a read nil value hits
CanConvert on the zero Value, a panic in Go; no claim exercises that
corner and this model keeps the total UnhandledKind result there.) -/
def config.ReadString (c : config) (key : String) : Except KeyErr String :=
  match c.Read key with
  | .error e => .error e
  | .ok v =>
    match v.toInterface with
    | .vStr s => .ok s
    | .vInt .i n => .ok (toString n)
    | .vInt .i8 n => .ok (toString n)
    | .vInt .i32 n => .ok (toString n)
    | .vInt .i64 n => .ok (toString n)
    | .vBool b => .ok (if b then "true" else "false")
    | w =>
      match convertTo w .str with
      | some (.vStr s) => .ok s
      | _ => .error (.errUnhandledKind w.kind key)


/-- Number of non-empty indirection layers on top of a value (used only
to drive inductions that strip indirections). -/
def indDepth : Val → Nat
  | .vIface (.full x) => indDepth x + 1
  | .vPtr _ (.full x) => indDepth x + 1
  | _ => 0

/-- Container values: what a successful write with unconsumed segments
can return (a struct, a non-nil map, or a pointer). -/
def container : Val → Bool
  | .vStruct _ => true
  | .vMap _ (.entries _) => true
  | .vPtr _ _ => true
  | _ => false

/-- The static type governing the conversion at the end of a write path:
the matched field's declared type, or the map's element type.  Mirrors
the descent of `write`; `none` when the descent cannot reach an
assignment site. -/
def typeAt : List String → Val → Option Ty
  | key, .vIface (.full x) => typeAt key x
  | key, .vPtr _ (.full x) => typeAt key x
  | [name], .vStruct fields =>
    match findField name fields with
    | some (_, t, _) => some t
    | none => none
  | name :: key', .vStruct fields =>
    match findField name fields with
    | some (_, _, fv) => typeAt key' fv
    | none => none
  | [_], .vMap et _ => some et
  | _ :: key', .vMap et .nilMap => typeAt key' (zeroVal et)
  | name :: key', .vMap et (.entries es) =>
    match findFold name es with
    | some (_, v0) => typeAt key' v0
    | none => typeAt key' (zeroVal et)
  | _, _ => none
termination_by key v => (key.length, sizeOf v)

/-- `divergesAt key key2 v = true` states that, descending from `v`, the
path `key2` leaves the path `key` at a Record or Map layer: at the first
layer where the consumed segments stop folding equal, both paths are
still non-empty.  This makes `key2` address a sibling of everything the
write to `key` touches. -/
def divergesAt : List String → List String → Val → Bool
  | key, key2, .vIface (.full x) => divergesAt key key2 x
  | key, key2, .vPtr _ (.full x) => divergesAt key key2 x
  | s :: key', t :: key2', .vStruct fields =>
    if eqFold s t then
      match findField s fields with
      | some (_, _, fv) => divergesAt key' key2' fv
      | none => false
    else true
  | s :: _, t :: _, .vMap _ .nilMap => !(eqFold s t)
  | s :: key', t :: key2', .vMap _ (.entries es) =>
    if eqFold s t then
      match findFold s es with
      | some (_, v0) => divergesAt key' key2' v0
      | none => false
    else true
  | _, _, _ => false
termination_by key _ v => (key.length, sizeOf v)

/-- A struct type with one string field Bar. -/
def tyBarStruct : Ty := .struct' (.cons "Bar" .str .nil)

/-- A root whose Foo field is a nil pointer to a struct: struct with
Foo of type *struct with Bar string. -/
def nilPtrRoot : config :=
  ⟨.vStruct (.cons "Foo" (.ptr tyBarStruct) (.vPtr tyBarStruct .empty) .nil)⟩

/-- A root struct with one string field Foo. -/
def strFieldRoot : config := ⟨.vStruct (.cons "Foo" .str (.vStr "") .nil)⟩

/-- A root struct with an int16 field Foo holding 65. -/
def i16Root : config := ⟨.vStruct (.cons "Foo" (.int .i16) (.vInt .i16 65) .nil)⟩

/-- A root struct with a uint8 field Foo holding 66. -/
def u8Root : config := ⟨.vStruct (.cons "Foo" (.int .u8) (.vInt .u8 66) .nil)⟩

/-- A root struct with two string fields Foo and Bar. -/
def twoFieldRoot : config :=
  ⟨.vStruct (.cons "Foo" .str (.vStr "a") (.cons "Bar" .str (.vStr "b") .nil))⟩

/-- A root struct whose field A is a struct with string field Bar. -/
def nestedRoot : config :=
  ⟨.vStruct (.cons "A" tyBarStruct (.vStruct (.cons "Bar" .str (.vStr "x") .nil)) .nil)⟩

/-- A root map[string]int holding one entry foo = 1. -/
def mapIntRoot : config := ⟨.vMap (.int .i) (.entries (.cons "foo" (.vInt .i 1) .nil))⟩

/-- A root struct whose field P is a pointer to interface and points at an
interface holding a map[string]string with one entry x = "old".  In Go
the pointed-at map is shared: the program's SetMapIndex mutates it in
place before the enclosing frames fail. -/
def ifaceMapRoot : config :=
  ⟨.vStruct (.cons "P" (.ptr .iface)
    (.vPtr .iface (.full (.vIface (.full
      (.vMap .str (.entries (.cons "x" (.vStr "old") .nil))))))) .nil)⟩

/-! ### Basic lemmas about the embedding -/

theorem toInterface_idem (v : Val) : v.toInterface.toInterface = v.toInterface := by
  induction v using Val.toInterface.induct <;> simp [Val.toInterface, *]

theorem read_toInterface (key : List String) (v : Val) :
    read key v.toInterface = read key v := by
  induction v using Val.toInterface.induct with
  | _ => cases key <;> simp [Val.toInterface, read, toInterface_idem, *]

theorem From_Key (e : KeyErr) (p : String) : (e.From p).Key = p ++ "." ++ e.Key := by
  cases e <;> simp [KeyErr.From, KeyErr.Key]

theorem eqFold_iff (a b : String) :
    eqFold a b = true ↔ a.data.map lowerChar = b.data.map lowerChar := by
  simp [eqFold]

theorem eqFold_refl (a : String) : eqFold a a = true := by
  simp [eqFold]

theorem eqFold_congr (s t : String) (h : eqFold s t = true) (k : String) :
    eqFold s k = eqFold t k := by
  rw [eqFold_iff] at h
  simp [eqFold, h]


theorem eqFold_trans2 {s t k : String} (h1 : eqFold s k = true)
    (h2 : eqFold t k = true) : eqFold s t = true := by
  rw [eqFold_iff] at h1 h2 ⊢
  rw [h1, h2]

theorem findField_fold {n : String} {fs : Fields} {a : String} {t : Ty} {v : Val}
    (h : findField n fs = some (a, t, v)) : eqFold n a = true := by
  induction fs using findField.induct n with
  | case1 => simp [findField] at h
  | case2 k tk vk rest hk =>
    rw [findField, if_pos hk] at h
    cases h
    exact hk
  | case3 k tk vk rest hk ih =>
    rw [findField, if_neg hk] at h
    exact ih h

theorem findField_congr {s t : String} (h : eqFold s t = true) (fs : Fields) :
    findField s fs = findField t fs := by
  induction fs using findField.induct s with
  | case1 => simp [findField]
  | case2 k tk vk rest hk =>
    rw [findField, if_pos hk, findField, if_pos (by rw [← eqFold_congr s t h]; exact hk)]
  | case3 k tk vk rest hk ih =>
    rw [findField, if_neg hk, findField,
      if_neg (by rw [← eqFold_congr s t h]; exact hk), ih]

theorem findField_setField_self (n : String) (w : Val) (fs : Fields) :
    findField n (setField n w fs) =
      (findField n fs).map (fun x => (x.1, x.2.1, w)) := by
  induction fs using findField.induct n with
  | case1 => simp [findField, setField]
  | case2 k tk vk rest hk =>
    rw [setField, if_pos hk, findField, if_pos hk, findField, if_pos hk]
    rfl
  | case3 k tk vk rest hk ih =>
    rw [setField, if_neg hk, findField, if_neg hk, findField, if_neg hk, ih]

theorem findField_setField_of_ne {s t : String} (h : eqFold s t = false) (w : Val)
    (fs : Fields) : findField t (setField s w fs) = findField t fs := by
  induction fs using findField.induct s with
  | case1 => simp [setField]
  | case2 k tk vk rest hk =>
    have ht : ¬ (eqFold t k = true) := fun htk => by
      rw [eqFold_trans2 hk htk] at h
      cases h
    rw [setField, if_pos hk, findField, if_neg ht, findField, if_neg ht]
  | case3 k tk vk rest hk ih =>
    rw [setField, if_neg hk, findField, findField]
    by_cases htk : eqFold t k = true
    · rw [if_pos htk, if_pos htk]
    · rw [if_neg htk, if_neg htk, ih]

theorem findFold_fold {n : String} {es : Entries} {a : String} {v : Val}
    (h : findFold n es = some (a, v)) : eqFold n a = true := by
  induction es using findFold.induct n with
  | case1 => simp [findFold] at h
  | case2 k vk rest hk =>
    rw [findFold, if_pos hk] at h
    cases h
    exact hk
  | case3 k vk rest hk ih =>
    rw [findFold, if_neg hk] at h
    exact ih h

theorem findFold_congr {s t : String} (h : eqFold s t = true) (es : Entries) :
    findFold s es = findFold t es := by
  induction es using findFold.induct s with
  | case1 => simp [findFold]
  | case2 k vk rest hk =>
    rw [findFold, if_pos hk, findFold, if_pos (by rw [← eqFold_congr s t h]; exact hk)]
  | case3 k vk rest hk ih =>
    rw [findFold, if_neg hk, findFold,
      if_neg (by rw [← eqFold_congr s t h]; exact hk), ih]

theorem findFold_setFold_self (n : String) (w : Val) (es : Entries) :
    findFold n (setFold n w es) = (findFold n es).map (fun x => (x.1, w)) := by
  induction es using findFold.induct n with
  | case1 => simp [findFold, setFold]
  | case2 k vk rest hk =>
    rw [setFold, if_pos hk, findFold, if_pos hk, findFold, if_pos hk]
    rfl
  | case3 k vk rest hk ih =>
    rw [setFold, if_neg hk, findFold, if_neg hk, findFold, if_neg hk, ih]

theorem findFold_setFold_of_ne {s t : String} (h : eqFold s t = false) (w : Val)
    (es : Entries) : findFold t (setFold s w es) = findFold t es := by
  induction es using findFold.induct s with
  | case1 => simp [setFold]
  | case2 k vk rest hk =>
    have ht : ¬ (eqFold t k = true) := fun htk => by
      rw [eqFold_trans2 hk htk] at h
      cases h
    rw [setFold, if_pos hk, findFold, if_neg ht, findFold, if_neg ht]
  | case3 k vk rest hk ih =>
    rw [setFold, if_neg hk, findFold, findFold]
    by_cases htk : eqFold t k = true
    · rw [if_pos htk, if_pos htk]
    · rw [if_neg htk, if_neg htk, ih]

theorem findFold_snoc_some {t : String} {es : Entries} {x : String × Val}
    (h : findFold t es = some x) (k : String) (w : Val) :
    findFold t (es.snoc k w) = some x := by
  induction es using findFold.induct t with
  | case1 => simp [findFold] at h
  | case2 k0 vk rest hk =>
    rw [findFold, if_pos hk] at h
    rw [Entries.snoc, findFold, if_pos hk, h]
  | case3 k0 vk rest hk ih =>
    rw [findFold, if_neg hk] at h
    rw [Entries.snoc, findFold, if_neg hk, ih h]

theorem findFold_snoc_none {t : String} {es : Entries} (h : findFold t es = none)
    (k : String) (w : Val) :
    findFold t (es.snoc k w) = if eqFold t k then some (k, w) else none := by
  induction es using findFold.induct t with
  | case1 => simp [Entries.snoc, findFold]
  | case2 k0 vk rest hk => rw [findFold, if_pos hk] at h; cases h
  | case3 k0 vk rest hk ih =>
    rw [findFold, if_neg hk] at h
    rw [Entries.snoc, findFold, if_neg hk, ih h]

theorem setFold_keys (n : String) (w : Val) (es : Entries) :
    (setFold n w es).keys = es.keys := by
  induction es using findFold.induct n with
  | case1 => simp [setFold]
  | case2 k vk rest hk => rw [setFold, if_pos hk, Entries.keys, Entries.keys]
  | case3 k vk rest hk ih => rw [setFold, if_neg hk, Entries.keys, Entries.keys, ih]


theorem toInterface_container {v : Val} (h : container v = true) :
    v.toInterface = v := by
  cases v <;> simp_all [container, Val.toInterface]

theorem container_toInterface {v : Val} (h : container v = true) :
    container v.toInterface = true := by
  rw [toInterface_container h]
  exact h

theorem vIface_full_ne (v : Val) : Val.vIface (.full v) ≠ v := by
  intro h
  have := congrArg sizeOf h
  simp at this
  omega

theorem box_vIface_ne (b : Box) : Box.full (Val.vIface b) ≠ b := by
  intro h
  have := congrArg sizeOf h
  simp at this
  omega

theorem convertTo_iface_not_self {v : Val} (h : convertTo v .iface = some v) :
    False := by
  cases v <;> simp [convertTo] at h
  exact box_vIface_ne _ h

theorem convertTo_self_assignable {v : Val} {t : Ty}
    (h : convertTo v t = some v) : assignableTo v t = true := by
  cases t with
  | iface => exact absurd h (fun h => convertTo_iface_not_self h)
  | str =>
    cases v <;> simp only [convertTo] at h <;> simp_all [assignableTo, Val.ty]
  | int k2 =>
    cases v <;> simp only [convertTo] at h <;> simp_all [assignableTo, Val.ty]
  | bool =>
    cases v <;> simp only [convertTo] at h <;> simp_all [assignableTo, Val.ty]
  | struct' fs =>
    cases v <;> simp only [convertTo] at h <;> (try split at h) <;>
      simp_all [assignableTo, Val.ty]
  | map t2 =>
    cases v <;> simp only [convertTo] at h <;> (try split at h) <;>
      simp_all [assignableTo, Val.ty]
  | ptr t2 =>
    cases v <;> simp only [convertTo] at h <;> (try split at h) <;>
      simp_all [assignableTo, Val.ty]

theorem convertTo_container {v : Val} {t : Ty} {w : Val}
    (hc : container v = true) (h : convertTo v t = some w) :
    w = v ∨ w = .vIface (.full v) := by
  cases v <;> simp only [container] at hc <;> cases t <;>
    simp only [convertTo] at h <;> (try split at h) <;> simp_all

theorem read_wrapStore {a : String} {k : List String} (v : Val) (t : Ty) :
    read (a :: k) (wrapStore v t) = read (a :: k) v := by
  unfold wrapStore
  split
  · rw [read]
  · rfl


theorem convertAssign_invalid (t : Ty) (n : String) :
    convertAssign .invalid t n
      = .crash "reflect: call of reflect.Value.Type on zero Value" := rfl

theorem convertAssign_ok {v : Val} {t : Ty} {n : String} {w : Val}
    (h : convertAssign v t n = .ok w) : v ≠ .invalid ∧ convertTo v t = some w := by
  cases v <;> simp only [convertAssign] at h
  case invalid => cases h
  all_goals refine ⟨by simp, ?_⟩
  all_goals split at h
  all_goals cases h
  all_goals assumption

theorem convertAssign_none {v : Val} {t : Ty} (n : String) (hne : v ≠ .invalid)
    (hc : convertTo v t = none) :
    convertAssign v t n = .err (.errIncompatibleType t.string' n) := by
  cases v
  case invalid => exact absurd rfl hne
  all_goals simp [convertAssign, hc]

theorem convertAssign_some {v : Val} {t : Ty} (n : String) {w : Val}
    (hc : convertTo v t = some w) : convertAssign v t n = .ok w := by
  cases v
  case invalid => simp [convertTo] at hc
  all_goals simp [convertAssign, hc]

theorem convertAssign_err {v : Val} {t : Ty} {n : String} {e : KeyErr}
    (h : convertAssign v t n = .err e) : e = .errIncompatibleType t.string' n := by
  cases v <;> simp only [convertAssign] at h
  case invalid => cases h
  all_goals split at h
  all_goals cases h
  all_goals rfl

theorem setMapStore_invalid (et : Ty) (n : String) (es : Entries) :
    setMapStore .invalid et n es = .ok (.vMap et (.entries (delFold n es))) := rfl

theorem setMapStore_ok {e : Val} {et : Ty} {n : String} {es : Entries} {v' : Val}
    (h : setMapStore e et n es = .ok v') :
    (e = .invalid ∧ v' = .vMap et (.entries (delFold n es))) ∨
    (e ≠ .invalid ∧ assignableTo e et = true ∧
      v' = .vMap et (.entries (setFold n (wrapStore e et) es))) := by
  cases e
  case invalid =>
    simp only [setMapStore] at h
    cases h
    exact Or.inl ⟨rfl, rfl⟩
  all_goals simp only [setMapStore] at h
  all_goals split at h
  all_goals cases h
  all_goals exact Or.inr ⟨by simp, by assumption, rfl⟩

theorem setMapStore_err {e : Val} {et : Ty} {n : String} {es : Entries} {e0 : KeyErr}
    (h : setMapStore e et n es = .err e0) : False := by
  cases e <;> simp only [setMapStore] at h
  case invalid => cases h
  all_goals split at h <;> cases h

theorem setMapStore_crash_of {e : Val} {et : Ty} (n : String) (es : Entries)
    (hne : e ≠ .invalid) (ha : assignableTo e et = false) :
    setMapStore e et n es
      = .crash ("reflect.Value.SetMapIndex: value is not assignable to type "
          ++ et.string') := by
  cases e
  case invalid => exact absurd rfl hne
  all_goals simp [setMapStore, ha]

theorem findFold_delFold_of_ne {s t : String} (h : eqFold s t = false) (es : Entries) :
    findFold t (delFold s es) = findFold t es := by
  induction es using findFold.induct s with
  | case1 => simp [delFold]
  | case2 k vk rest hk =>
    have ht : ¬ (eqFold t k = true) := fun htk => by
      rw [eqFold_trans2 hk htk] at h
      cases h
    rw [delFold, if_pos hk, findFold, if_neg ht]
  | case3 k vk rest hk ih =>
    rw [delFold, if_neg hk, findFold, findFold]
    by_cases htk : eqFold t k = true
    · rw [if_pos htk, if_pos htk]
    · rw [if_neg htk, if_neg htk, ih]

theorem write_shape {name : String} {key' : List String} {element value v' : Val}
    (hw : write (name :: key') element value = .ok v') : container v' = true := by
  induction element using Val.toInterface.induct generalizing v' with
  | case1 x ih =>
    simp only [write] at hw
    cases heq : write (name :: key') x value with
    | ok e =>
      rw [heq] at hw
      simp only [] at hw
      cases hw
      exact container_toInterface (ih heq)
    | err e => rw [heq] at hw; simp at hw
    | crash m => rw [heq] at hw; simp at hw
  | case2 =>
    simp [write] at hw
  | case3 s => simp [write] at hw
  | case4 k n => simp [write] at hw
  | case5 b => simp [write] at hw
  | case6 fields =>
    simp only [write] at hw
    cases hf : findField name fields with
    | some x =>
      obtain ⟨a, ftype, fval⟩ := x
      rw [hf] at hw
      simp only [] at hw
      cases heq : write key' fval value with
      | ok v1 =>
        rw [heq] at hw
        simp only [] at hw
        cases hca : convertAssign v1 ftype name with
        | ok w =>
          rw [hca] at hw
          simp only [] at hw
          cases hw
          rfl
        | err e => rw [hca] at hw; simp at hw
        | crash m => rw [hca] at hw; simp at hw
      | err e => rw [heq] at hw; simp at hw
      | crash m => rw [heq] at hw; simp at hw
    | none => rw [hf] at hw; simp at hw
  | case7 t es =>
    cases es with
    | nilMap =>
      simp only [write] at hw
      cases heq : write key' (zeroVal t) value with
      | ok e =>
        rw [heq] at hw
        simp only [] at hw
        cases hca : convertAssign e t name with
        | ok w => rw [hca] at hw; simp only [] at hw; cases hw; rfl
        | err e0 => rw [hca] at hw; simp at hw
        | crash m => rw [hca] at hw; simp at hw
      | err e => rw [heq] at hw; simp at hw
      | crash m => rw [heq] at hw; simp at hw
    | entries es =>
      simp only [write] at hw
      cases hf : findFold name es with
      | some x =>
        obtain ⟨k0, v0⟩ := x
        rw [hf] at hw
        simp only [] at hw
        cases heq : write key' v0 value with
        | ok e =>
          rw [heq] at hw
          simp only [] at hw
          rcases setMapStore_ok hw with ⟨-, rfl⟩ | ⟨-, -, rfl⟩ <;> rfl
        | err e => rw [heq] at hw; simp at hw
        | crash m => rw [heq] at hw; simp at hw
      | none =>
        rw [hf] at hw
        simp only [] at hw
        cases heq : write key' (zeroVal t) value with
        | ok e =>
          rw [heq] at hw
          simp only [] at hw
          cases hca : convertAssign e t name with
          | ok w => rw [hca] at hw; simp only [] at hw; cases hw; rfl
          | err e0 => rw [hca] at hw; simp at hw
          | crash m => rw [hca] at hw; simp at hw
        | err e => rw [heq] at hw; simp at hw
        | crash m => rw [heq] at hw; simp at hw
  | case8 t x =>
    cases x with
    | full y =>
      simp only [write] at hw
      cases heq : write (name :: key') y value with
      | ok e =>
        rw [heq] at hw
        simp only [] at hw
        cases hty : e.ty with
        | some te => rw [hty] at hw; simp only [] at hw; cases hw; rfl
        | none => rw [hty] at hw; simp at hw
      | err e => rw [heq] at hw; simp at hw
      | crash m => rw [heq] at hw; simp at hw
    | empty => simp [write] at hw
  | case9 => simp [write] at hw


theorem splitChars_ne_nil (cs : List Char) : splitChars cs ≠ [] := by
  induction cs using splitChars.induct <;> simp [splitChars, *]

theorem splitKey_ne_nil (s : String) : splitKey s ≠ [] := by
  simpa [splitKey] using splitChars_ne_nil s.data

/-! ### Claim theorems -/

/-- Claim C2 (refuted by the source; code bug): Write is not atomic.
Through a pointer-to-interface field the map store-back happens on the
shared Go map before the enclosing pointer frame fails its conversion check.
On ifaceMapRoot, Write "p.x" reaches the inner map and performs the
update that in Go mutates the shared map in place (first conjunct: the
inner map write succeeds and rebinds x to "new"), yet the overall Write
fails with IncompatibleType at "p" (second conjunct), so in Go a
subsequent Read "p.x" observes "new", not the pre-write "old".  The
value-level model cannot represent the aliasing itself; the two
conjuncts exhibit exactly the committed inner step and the failing outer
step of one call. -/
theorem map_mutation_leak :
    write ["x"] (.vMap .str (.entries (.cons "x" (.vStr "old") .nil))) (.vStr "new")
      = .ok (.vMap .str (.entries (.cons "x" (.vStr "new") .nil))) ∧
    ifaceMapRoot.Write "p.x" (.vStr "new")
      = (.err (.errIncompatibleType "*interface \x7b\x7d" "p"), ifaceMapRoot) := by
  constructor
  · simp +decide [write, Val.toInterface, findFold, eqFold, lowerChar,
      setMapStore, assignableTo, Val.ty, wrapStore, setFold]
  · simp +decide [ifaceMapRoot, config.Write, write, splitKey, splitChars,
      Val.toInterface, findField, findFold, eqFold, lowerChar, setMapStore,
      assignableTo, convertAssign, convertTo, Val.ty, wrapStore, setFold,
      Ty.string', IntKind.name]

/-- Counterexample to claim C5 as stated: a read reaching a nil pointer
with a non-empty remaining path fails with UnhandledKind (kind
"invalid"), not with NoSuchKey. -/
theorem c5_counterexample :
    nilPtrRoot.Read "foo.bar" = .error (.errUnhandledKind "invalid" "foo.bar") ∧
    nilPtrRoot.Read "foo.bar" ≠ .error (.errNoSuchKey "foo.bar") ∧
    nilPtrRoot.Read "foo.bar" ≠ .error (.errNoSuchKey "bar") := by
  have h : nilPtrRoot.Read "foo.bar"
      = .error (.errUnhandledKind "invalid" "foo.bar") := by
    simp +decide [nilPtrRoot, tyBarStruct, config.Read, read, splitKey, splitChars,
      Val.toInterface, findField, eqFold, lowerChar, Val.kind, KeyErr.From]
  refine ⟨h, ?_, ?_⟩ <;> rw [h] <;> simp

/-- Claim C5 (corrected): a read that reaches an empty Indirection (nil
pointer or nil interface) with a non-empty remaining path fails with
UnhandledKind of kind "invalid" (not NoSuchKey), carrying the current
first unconsumed segment. -/
theorem read_empty_indirection (name : String) (key' : List String) (t : Ty) :
    read (name :: key') (.vIface .empty) = .error (.errUnhandledKind "invalid" name) ∧
    read (name :: key') (.vPtr t .empty) = .error (.errUnhandledKind "invalid" name) := by
  constructor <;> simp [read, Val.kind]

/-- Counterexample to claim C6 as stated: writing through a nil pointer
with segments remaining fails, although the same write into a freshly
allocated inner value succeeds. -/
theorem c6_counterexample :
    write ["bar"] (zeroVal tyBarStruct) (.vStr "x")
      = .ok (.vStruct (.cons "Bar" .str (.vStr "x") .nil)) ∧
    nilPtrRoot.Write "foo.bar" (.vStr "x")
      = (.err (.errUnhandledKind "invalid" "foo.bar"), nilPtrRoot) := by
  constructor <;>
    simp +decide [nilPtrRoot, tyBarStruct, config.Write, write, splitKey, splitChars,
      Val.toInterface, findField, setField, convertTo, eqFold, lowerChar, Val.kind,
      KeyErr.From, zeroVal, zeroFields]

/-- Claim C6 (corrected): a write that reaches an empty Indirection (nil
pointer or nil interface) with segments remaining does not allocate an
inner value; it fails with UnhandledKind of kind "invalid" carrying the
first unconsumed segment.  Fresh allocation on write happens only for
absent Map entries. -/
theorem write_empty_indirection (name : String) (key' : List String) (t : Ty)
    (value : Val) :
    write (name :: key') (.vIface .empty) value
      = .err (.errUnhandledKind "invalid" name) ∧
    write (name :: key') (.vPtr t .empty) value
      = .err (.errUnhandledKind "invalid" name) := by
  constructor <;> simp [write, Val.kind]

/-- Claim C7 (code_bug): evaluating the model at the failing inputs: an
int16 field holding 65 is read back as "A" (Go's integer-to-string rune
conversion, via the generic default arm), and a uint8 field holding 66
as "B", not as the decimal "65"/"66" the specification promises for
every integer kind. -/
theorem readstring_int16_rune :
    i16Root.ReadString "foo" = .ok "A" ∧ u8Root.ReadString "foo" = .ok "B" ∧
    "A" ≠ "65" ∧ "B" ≠ "66" := by
  refine ⟨?_, ?_, by decide, by decide⟩ <;>
    simp +decide [i16Root, u8Root, config.ReadString, config.Read, read, splitKey,
      splitChars, Val.toInterface, findField, eqFold, lowerChar, convertTo,
      runeString, Val.kind]

/-- Counterexample to claim C10 as stated: splitting does not remove
empty segments; an empty key yields one empty segment which reaches the
resolver (witnessed by the NoSuchKey error carrying the empty name). -/
theorem c10_counterexample :
    splitKey "" = [""] ∧ splitKey "a..b" = ["a", "", "b"] ∧
    strFieldRoot.Read "" = .error (.errNoSuchKey "") := by
  refine ⟨by decide, by decide, ?_⟩
  simp +decide [strFieldRoot, config.Read, read, splitKey, splitChars,
    Val.toInterface, findField, eqFold, lowerChar]

/-- Claim C10 (corrected): the traversal path is the key split on '.'
with empty segments preserved: the split is never the empty sequence,
but an empty key yields one empty segment and leading, trailing or
consecutive dots yield empty segments, all passed to the resolver. -/
theorem split_key_segments :
    (∀ c key, config.Read c key = read (splitKey key) c.Data.toInterface) ∧
    (∀ s, splitKey s ≠ []) ∧
    splitKey "" = [""] ∧ splitKey ".a" = ["", "a"] ∧
    splitKey "a." = ["a", ""] ∧ splitKey "a..b" = ["a", "", "b"] :=
  ⟨fun _ _ => rfl, splitKey_ne_nil, by decide, by decide, by decide, by decide⟩


/-- Counterexample to claim C9 as stated: the store-back does not always
happen under the matched entry's original key.  Writing Go's nil (the
zero reflect.Value) over the matched entry FOO deletes it: the write
succeeds and the resulting map has no keys at all, so the key sequence
is not preserved. -/
theorem c9_counterexample :
    write ["foo"] (.vMap .str (.entries (.cons "FOO" (.vStr "old") .nil))) .invalid
      = .ok (.vMap .str (.entries .nil)) ∧
    (Entries.nil).keys ≠ (Entries.cons "FOO" (.vStr "old") .nil).keys := by
  constructor
  · simp +decide [write, Val.toInterface, findFold, eqFold, lowerChar,
      setMapStore, delFold]
  · decide

/-- Claim C9 (corrected): when an existing entry case-insensitively
matches the consumed segment and the replacement value is non-zero, a
successful map write stores the result back at that entry, preserving
the original key casing and the whole key sequence; a zero replacement
value instead deletes the matched entry; when no entry matches, the new
entry is appended under the exact requested segment string. -/
theorem map_write_key_casing (name : String) (key' : List String) (et : Ty)
    (es : Entries) (value : Val) :
    (∀ k0 v0 e, findFold name es = some (k0, v0) →
      write key' v0 value = .ok e → e ≠ .invalid →
      ∀ v', write (name :: key') (.vMap et (.entries es)) value = .ok v' →
        v' = .vMap et (.entries (setFold name (wrapStore e et) es)) ∧
        (setFold name (wrapStore e et) es).keys = es.keys) ∧
    (∀ k0 v0, findFold name es = some (k0, v0) →
      write key' v0 value = .ok .invalid →
      write (name :: key') (.vMap et (.entries es)) value
        = .ok (.vMap et (.entries (delFold name es)))) ∧
    (findFold name es = none →
      ∀ v', write (name :: key') (.vMap et (.entries es)) value = .ok v' →
        ∃ w, v' = .vMap et (.entries (es.snoc name w))) := by
  refine ⟨?_, ?_, ?_⟩
  · intro k0 v0 e hf hwe hne v' hw
    simp only [write, hf, hwe] at hw
    rcases setMapStore_ok hw with ⟨he, -⟩ | ⟨-, -, rfl⟩
    · exact absurd he hne
    · exact ⟨rfl, setFold_keys _ _ _⟩
  · intro k0 v0 hf hwe
    simp only [write, hf, hwe, setMapStore_invalid]
  · intro hf v' hw
    simp only [write, hf] at hw
    cases heq : write key' (zeroVal et) value with
    | ok e =>
      rw [heq] at hw
      simp only [] at hw
      cases hca : convertAssign e et name with
      | ok w => rw [hca] at hw; simp only [] at hw; cases hw; exact ⟨w, rfl⟩
      | err e0 => rw [hca] at hw; simp at hw
      | crash m => rw [hca] at hw; simp at hw
    | err e => rw [heq] at hw; simp at hw
    | crash m => rw [heq] at hw; simp at hw

/-- Witness for C9: an existing entry FOO matched by segment foo keeps
its casing under a non-zero replacement; a zero replacement deletes the
matched entry; an absent segment Bar is appended as Bar. -/
theorem map_write_key_casing_witness :
    ((Val.vMap .str (.entries (.cons "FOO" (.vStr "new") .nil)))
        = .vMap .str (.entries (setFold "foo" (wrapStore (.vStr "new") .str)
            (.cons "FOO" (.vStr "old") .nil))) ∧
      (setFold "foo" (wrapStore (.vStr "new") .str)
          (.cons "FOO" (.vStr "old") .nil)).keys
        = (Entries.cons "FOO" (.vStr "old") .nil).keys) ∧
    write ["foo"] (.vMap .str (.entries (.cons "FOO" (.vStr "old") .nil))) .invalid
      = .ok (.vMap .str (.entries (delFold "foo" (.cons "FOO" (.vStr "old") .nil)))) ∧
    (∃ w, (Val.vMap .str (.entries (.cons "FOO" (.vStr "old")
        (.cons "Bar" (.vStr "new") .nil))))
      = .vMap .str (.entries ((Entries.cons "FOO" (.vStr "old") .nil).snoc "Bar" w))) := by
  refine ⟨?_, ?_, ?_⟩
  · exact (map_write_key_casing "foo" [] .str (.cons "FOO" (.vStr "old") .nil)
      (.vStr "new")).1 "FOO" (.vStr "old") (.vStr "new") (by decide)
      (by simp [write, Val.toInterface]) (by decide)
      (.vMap .str (.entries (.cons "FOO" (.vStr "new") .nil)))
      (by simp +decide [write, Val.toInterface, findFold, eqFold, lowerChar,
        setMapStore, assignableTo, Val.ty, wrapStore, setFold])
  · exact (map_write_key_casing "foo" [] .str (.cons "FOO" (.vStr "old") .nil)
      .invalid).2.1 "FOO" (.vStr "old") (by decide)
      (by simp [write, Val.toInterface])
  · exact (map_write_key_casing "Bar" [] .str (.cons "FOO" (.vStr "old") .nil)
      (.vStr "new")).2.2 (by decide)
      (.vMap .str (.entries (.cons "FOO" (.vStr "old")
        (.cons "Bar" (.vStr "new") .nil))))
      (by simp +decide [write, Val.toInterface, findFold, eqFold, lowerChar,
        convertAssign, convertTo, Entries.snoc])


theorem dotted_take_cons {l : List String} {n : Nat} (a : String) (h : n < l.length) :
    dotted ((a :: l).take (n + 2)) = a ++ "." ++ dotted (l.take (n + 1)) := by
  cases l with
  | nil => exact absurd h (by simp)
  | cons b t => rfl

theorem err_path_here (name : String) (key' : List String) {e : KeyErr}
    (hk : e.Key = name) :
    ∃ n, n < (name :: key').length ∧ e.Key = dotted ((name :: key').take (n + 1)) :=
  ⟨0, Nat.succ_pos _, hk⟩

theorem err_path_cons (name : String) {key' : List String} {e0 : KeyErr}
    (h : ∃ n, n < key'.length ∧ e0.Key = dotted (key'.take (n + 1))) :
    ∃ n, n < (name :: key').length ∧
      (e0.From name).Key = dotted ((name :: key').take (n + 1)) := by
  obtain ⟨n, hn, hk⟩ := h
  refine ⟨n + 1, by simpa using Nat.succ_lt_succ hn, ?_⟩
  rw [From_Key, hk, dotted_take_cons name hn]

theorem read_err_path : ∀ (key : List String) (elem : Val) (e : KeyErr),
    read key elem = .error e →
    ∃ n, n < key.length ∧ e.Key = dotted (key.take (n + 1)) := by
  intro key elem
  induction key, elem using read.induct with
  | case1 elem => intro e h; simp [read] at h
  | case2 name key' x ih =>
    intro e h
    simp only [read] at h
    exact ih e h
  | case3 name key' ih =>
    intro e h
    simp only [read] at h
    cases h
    exact err_path_here name key' rfl
  | case4 name key' t x ih =>
    intro e h
    simp only [read] at h
    exact ih e h
  | case5 name key' t ih =>
    intro e h
    simp only [read] at h
    cases h
    exact err_path_here name key' rfl
  | case6 name key' fields a ftype fval hfind e0 hread ih =>
    intro e h
    simp only [read, hfind, hread] at h
    cases h
    exact err_path_cons name (ih e0 hread)
  | case7 name key' fields a ftype fval hfind v hread ih =>
    intro e h
    simp [read, hfind, hread] at h
  | case8 name key' fields hfind =>
    intro e h
    simp only [read, hfind] at h
    cases h
    exact err_path_here name key' rfl
  | case9 name key' et =>
    intro e h
    simp only [read] at h
    cases h
    exact err_path_here name key' rfl
  | case10 name key' et es k0 v0 hfind e0 hread ih =>
    intro e h
    simp only [read, hfind, hread] at h
    cases h
    exact err_path_cons name (ih e0 hread)
  | case11 name key' et es k0 v0 hfind v hread ih =>
    intro e h
    simp [read, hfind, hread] at h
  | case12 name key' et es hfind =>
    intro e h
    simp only [read, hfind] at h
    cases h
    exact err_path_here name key' rfl
  | case13 name tail v hv1 hv2 hv3 hv4 hv5 hv6 hv7 =>
    intro e h
    cases v with
    | vStr s => simp [read] at h; subst h; exact err_path_here name tail rfl
    | vInt k n => simp [read] at h; subst h; exact err_path_here name tail rfl
    | vBool b => simp [read] at h; subst h; exact err_path_here name tail rfl
    | invalid => simp [read] at h; subst h; exact err_path_here name tail rfl
    | vStruct fields => exact absurd rfl (hv5 fields)
    | vMap et data =>
      cases data with
      | nilMap => exact absurd rfl (hv6 et)
      | entries es => exact absurd rfl (hv7 et es)
    | vPtr t inner =>
      cases inner with
      | empty => exact absurd rfl (hv4 t)
      | full x => exact absurd rfl (hv3 t x)
    | vIface inner =>
      cases inner with
      | empty => exact absurd rfl hv2
      | full x => exact absurd rfl (hv1 x)


theorem write_err_path : ∀ (key : List String) (elem value : Val) (e : KeyErr),
    write key elem value = .err e →
    ∃ n, n < key.length ∧ e.Key = dotted (key.take (n + 1)) := by
  intro key elem value
  induction key, elem, value using write.induct with
  | case1 elem value => intro e h; simp [write] at h
  | case2 value name key' x e0 hok ih => intro e h; simp [write, hok] at h
  | case3 value name key' x hnok ih =>
    intro e h
    simp only [write] at h
    cases hrec : write (name :: key') x value with
    | ok e0 => exact (hnok e0 hrec).elim
    | err e0 =>
      rw [hrec] at h
      try simp only [] at h
      cases h
      exact ih _ hrec
    | crash m => rw [hrec] at h; simp at h
  | case4 value name key' e0 hok ih => intro e h; simp [write] at hok
  | case5 value name key' hnok ih =>
    intro e h
    simp only [write] at h
    cases h
    exact err_path_here name key' rfl
  | case6 value name key' t x e0 hok te hty ih =>
    intro e h
    simp [write, hok, hty] at h
  | case7 value name key' t x e0 hok hty ih =>
    intro e h
    simp [write, hok, hty] at h
  | case8 value name key' t x hnok ih =>
    intro e h
    simp only [write] at h
    cases hrec : write (name :: key') x value with
    | ok e0 => exact (hnok e0 hrec).elim
    | err e0 =>
      rw [hrec] at h
      try simp only [] at h
      cases h
      exact ih _ hrec
    | crash m => rw [hrec] at h; simp at h
  | case9 value name key' t e0 hok te hty ih => intro e h; simp [write] at hok
  | case10 value name key' t e0 hok hty ih => intro e h; simp [write] at hok
  | case11 value name key' t hnok ih =>
    intro e h
    simp only [write] at h
    cases h
    exact err_path_here name key' rfl
  | case12 value name key' fields a ftype fval hfind e0 hrec ih =>
    intro e h
    simp only [write, hfind, hrec] at h
    cases h
    exact err_path_cons name (ih e0 hrec)
  | case13 value name key' fields a ftype fval hfind m hrec ih =>
    intro e h
    simp [write, hfind, hrec] at h
  | case14 value name key' fields a ftype fval hfind v hrec e0 hca ih =>
    intro e h
    simp [write, hfind, hrec, hca] at h
  | case15 value name key' fields a ftype fval hfind v hrec hnot ih =>
    intro e h
    simp only [write, hfind, hrec] at h
    cases hca : convertAssign v ftype name with
    | ok w => exact (hnot w hca).elim
    | err e0 =>
      rw [hca] at h
      try simp only [] at h
      cases h
      exact err_path_here name key' (by rw [convertAssign_err hca]; rfl)
    | crash m => rw [hca] at h; simp at h
  | case16 value name key' fields hfind =>
    intro e h
    simp only [write, hfind] at h
    cases h
    exact err_path_here name key' rfl
  | case17 value name key' et e0 hrec ih =>
    intro e h
    simp only [write, hrec] at h
    cases h
    exact err_path_cons name (ih e0 hrec)
  | case18 value name key' et m hrec ih =>
    intro e h
    simp [write, hrec] at h
  | case19 value name key' et v hrec e0 hca ih =>
    intro e h
    simp [write, hrec, hca] at h
  | case20 value name key' et v hrec hnot ih =>
    intro e h
    simp only [write, hrec] at h
    cases hca : convertAssign v et name with
    | ok w => exact (hnot w hca).elim
    | err e0 =>
      rw [hca] at h
      try simp only [] at h
      cases h
      exact err_path_here name key' (by rw [convertAssign_err hca]; rfl)
    | crash m => rw [hca] at h; simp at h
  | case21 value name key' et es k0 v0 hfind e0 hrec ih =>
    intro e h
    simp only [write, hfind, hrec] at h
    cases h
    exact err_path_cons name (ih e0 hrec)
  | case22 value name key' et es k0 v0 hfind m hrec ih =>
    intro e h
    simp [write, hfind, hrec] at h
  | case23 value name key' et es k0 v0 hfind v hrec ih =>
    intro e h
    simp only [write, hfind, hrec] at h
    exact (setMapStore_err h).elim
  | case24 value name key' et es hfind e0 hrec ih =>
    intro e h
    simp only [write, hfind, hrec] at h
    cases h
    exact err_path_cons name (ih e0 hrec)
  | case25 value name key' et es hfind m hrec ih =>
    intro e h
    simp [write, hfind, hrec] at h
  | case26 value name key' et es hfind v hrec e0 hca ih =>
    intro e h
    simp [write, hfind, hrec, hca] at h
  | case27 value name key' et es hfind v hrec hnot ih =>
    intro e h
    simp only [write, hfind, hrec] at h
    cases hca : convertAssign v et name with
    | ok w => exact (hnot w hca).elim
    | err e0 =>
      rw [hca] at h
      try simp only [] at h
      cases h
      exact err_path_here name key' (by rw [convertAssign_err hca]; rfl)
    | crash m => rw [hca] at h; simp at h
  | case28 value name tail v hv1 hv2 hv3 hv4 hv5 hv6 hv7 =>
    intro e h
    cases v with
    | vStr s => simp [write] at h; subst h; exact err_path_here name tail rfl
    | vInt k n => simp [write] at h; subst h; exact err_path_here name tail rfl
    | vBool b => simp [write] at h; subst h; exact err_path_here name tail rfl
    | invalid => simp [write] at h; subst h; exact err_path_here name tail rfl
    | vStruct fields => exact absurd rfl (hv5 fields)
    | vMap et data =>
      cases data with
      | nilMap => exact absurd rfl (hv6 et)
      | entries es => exact absurd rfl (hv7 et es)
    | vPtr t inner =>
      cases inner with
      | empty => exact absurd rfl (hv4 t)
      | full x => exact absurd rfl (hv3 t x)
    | vIface inner =>
      cases inner with
      | empty => exact absurd rfl hv2
      | full x => exact absurd rfl (hv1 x)


/-- Claim C4 (confirmed): every structural error is built at the failure
point from only its local segment name, each enclosing Record/Map frame
prepends its consumed segment exactly once (the From operation), and the
error surfacing from Read or Write carries the dotted path formed by a
prefix of the original key's segments up to and including the failure
point. -/
theorem error_path_accumulation :
    (∀ (e : KeyErr) (p : String), (e.From p).Key = p ++ "." ++ e.Key) ∧
    (∀ (c : config) (key : String) (e : KeyErr),
      c.Read key = .error e →
      ∃ n, n < (splitKey key).length ∧
        e.Key = dotted ((splitKey key).take (n + 1))) ∧
    (∀ (c : config) (key : String) (value : Val) (e : KeyErr) (c' : config),
      c.Write key value = (.err e, c') →
      ∃ n, n < (splitKey key).length ∧
        e.Key = dotted ((splitKey key).take (n + 1))) := by
  refine ⟨From_Key, ?_, ?_⟩
  · intro c key e h
    exact read_err_path _ _ e h
  · intro c key value e c' h
    unfold config.Write at h
    cases hr : write (splitKey key) c.Data.toInterface value <;> rw [hr] at h <;>
      simp [Prod.ext_iff] at h
    exact h.1 ▸ write_err_path _ _ _ _ hr

/-- Witness for C4 at concrete failing calls (one prepending frame). -/
theorem error_path_accumulation_witness :
    ((KeyErr.errNoSuchKey "q").From "a").Key = "a" ++ "." ++ (KeyErr.errNoSuchKey "q").Key ∧
    (∃ n, n < (splitKey "a.q").length ∧
      (KeyErr.errNoSuchKey "a.q").Key = dotted ((splitKey "a.q").take (n + 1))) ∧
    (∃ n, n < (splitKey "a.w").length ∧
      (KeyErr.errNoSuchKey "a.w").Key = dotted ((splitKey "a.w").take (n + 1))) :=
  ⟨error_path_accumulation.1 (.errNoSuchKey "q") "a",
   error_path_accumulation.2.1 nestedRoot "a.q" (.errNoSuchKey "a.q")
     (by simp +decide [nestedRoot, tyBarStruct, config.Read, read, splitKey,
       splitChars, Val.toInterface, findField, eqFold, lowerChar, KeyErr.From]),
   error_path_accumulation.2.2 nestedRoot "a.w" (.vStr "z") (.errNoSuchKey "a.w")
     nestedRoot
     (by simp +decide [nestedRoot, tyBarStruct, config.Write, write, splitKey,
       splitChars, Val.toInterface, findField, eqFold, lowerChar, KeyErr.From])⟩


theorem eqFold_symm (s t : String) : eqFold s t = eqFold t s := by
  simp only [eqFold]
  by_cases h : s.data.map lowerChar = t.data.map lowerChar
  · simp [h]
  · have h2 : t.data.map lowerChar ≠ s.data.map lowerChar := fun hh => h hh.symm
    simp [h, h2]

theorem divergesAt_iface_empty (key key2 : List String) :
    divergesAt key key2 (.vIface .empty) = false := by
  cases key <;> cases key2 <;> rw [divergesAt.eq_def]

theorem divergesAt_ptr_empty (key key2 : List String) (t : Ty) :
    divergesAt key key2 (.vPtr t .empty) = false := by
  cases key <;> cases key2 <;> rw [divergesAt.eq_def]

theorem divergesAt_vStr (key key2 : List String) (s : String) :
    divergesAt key key2 (.vStr s) = false := by
  cases key <;> cases key2 <;> rw [divergesAt.eq_def]

theorem divergesAt_vInt (key key2 : List String) (k : IntKind) (n : Int) :
    divergesAt key key2 (.vInt k n) = false := by
  cases key <;> cases key2 <;> rw [divergesAt.eq_def]

theorem divergesAt_vBool (key key2 : List String) (b : Bool) :
    divergesAt key key2 (.vBool b) = false := by
  cases key <;> cases key2 <;> rw [divergesAt.eq_def]

theorem divergesAt_invalid (key key2 : List String) :
    divergesAt key key2 .invalid = false := by
  cases key <;> cases key2 <;> rw [divergesAt.eq_def]

theorem divergesAt_nil_left (key2 : List String) :
    ∀ v, divergesAt [] key2 v = false := by
  intro v
  induction v using indDepth.induct with
  | case1 x ih => simp only [divergesAt]; exact ih
  | case2 t x ih => simp only [divergesAt]; exact ih
  | case3 v h1 h2 =>
    cases v with
    | vStr s => exact divergesAt_vStr _ _ _
    | vInt k n => exact divergesAt_vInt _ _ _ _
    | vBool b => exact divergesAt_vBool _ _ _
    | invalid => exact divergesAt_invalid _ _
    | vIface inner =>
      cases inner with
      | full x => exact absurd rfl (h1 x)
      | empty => exact divergesAt_iface_empty _ _
    | vPtr t inner =>
      cases inner with
      | full x => exact absurd rfl (h2 t x)
      | empty => exact divergesAt_ptr_empty _ _ _
    | vStruct fields => cases key2 <;> rw [divergesAt.eq_def]
    | vMap et data => cases data <;> cases key2 <;> rw [divergesAt.eq_def]

theorem divergesAt_nil_right (key : List String) :
    ∀ v, divergesAt key [] v = false := by
  intro v
  induction v using indDepth.induct with
  | case1 x ih => simp only [divergesAt]; exact ih
  | case2 t x ih => simp only [divergesAt]; exact ih
  | case3 v h1 h2 =>
    cases v with
    | vStr s => exact divergesAt_vStr _ _ _
    | vInt k n => exact divergesAt_vInt _ _ _ _
    | vBool b => exact divergesAt_vBool _ _ _
    | invalid => exact divergesAt_invalid _ _
    | vIface inner =>
      cases inner with
      | full x => exact absurd rfl (h1 x)
      | empty => exact divergesAt_iface_empty _ _
    | vPtr t inner =>
      cases inner with
      | full x => exact absurd rfl (h2 t x)
      | empty => exact divergesAt_ptr_empty _ _ _
    | vStruct fields => cases key <;> rw [divergesAt.eq_def]
    | vMap et data => cases data <;> cases key <;> rw [divergesAt.eq_def]

theorem divergesAt_nonempty {key key2 : List String} {v : Val}
    (h : divergesAt key key2 v = true) : key ≠ [] ∧ key2 ≠ [] := by
  constructor
  · rintro rfl
    rw [divergesAt_nil_left] at h
    cases h
  · rintro rfl
    rw [divergesAt_nil_right] at h
    cases h


theorem write_frame_aux : ∀ (key : List String) (elem value : Val)
    (key2 : List String) (v' : Val),
    divergesAt key key2 elem = true →
    write key elem value = .ok v' →
    read key2 v' = read key2 elem := by
  intro key elem value
  induction key, elem, value using write.induct with
  | case1 elem value =>
    intro key2 v' hd hw
    rw [divergesAt_nil_left] at hd
    cases hd
  | case2 value name key' x e0 hok ih =>
    intro key2 v' hd hw
    simp only [divergesAt] at hd
    simp only [write, hok] at hw
    cases hw
    obtain ⟨-, hk2⟩ := divergesAt_nonempty hd
    obtain ⟨a, key2', rfl⟩ := List.exists_cons_of_ne_nil hk2
    rw [read_toInterface]
    simp only [read]
    exact ih (a :: key2') e0 hd hok
  | case3 value name key' x hnok ih =>
    intro key2 v' hd hw
    simp only [write] at hw
    cases hrec : write (name :: key') x value with
    | ok e0 => exact (hnok e0 hrec).elim
    | err e0 => rw [hrec] at hw; simp at hw
    | crash m => rw [hrec] at hw; simp at hw
  | case4 value name key' e0 hok ih =>
    intro key2 v' hd hw
    simp [write] at hok
  | case5 value name key' hnok ih =>
    intro key2 v' hd hw
    rw [divergesAt_iface_empty] at hd
    cases hd
  | case6 value name key' t x e0 hok te hty ih =>
    intro key2 v' hd hw
    simp only [divergesAt] at hd
    simp only [write, hok, hty] at hw
    cases hw
    obtain ⟨-, hk2⟩ := divergesAt_nonempty hd
    obtain ⟨a, key2', rfl⟩ := List.exists_cons_of_ne_nil hk2
    simp only [read]
    exact ih (a :: key2') e0 hd hok
  | case7 value name key' t x e0 hok hty ih =>
    intro key2 v' hd hw
    simp [write, hok, hty] at hw
  | case8 value name key' t x hnok ih =>
    intro key2 v' hd hw
    simp only [write] at hw
    cases hrec : write (name :: key') x value with
    | ok e0 => exact (hnok e0 hrec).elim
    | err e0 => rw [hrec] at hw; simp at hw
    | crash m => rw [hrec] at hw; simp at hw
  | case9 value name key' t e0 hok te hty ih =>
    intro key2 v' hd hw
    simp [write] at hok
  | case10 value name key' t e0 hok hty ih =>
    intro key2 v' hd hw
    simp [write] at hok
  | case11 value name key' t hnok ih =>
    intro key2 v' hd hw
    rw [divergesAt_ptr_empty] at hd
    cases hd
  | case12 value name key' fields a ftype fval hfind e0 hrec ih =>
    intro key2 v' hd hw
    simp [write, hfind, hrec] at hw
  | case13 value name key' fields a ftype fval hfind m hrec ih =>
    intro key2 v' hd hw
    simp [write, hfind, hrec] at hw
  | case14 value name key' fields a ftype fval hfind v1 hrec w hca ih =>
    intro key2 v' hd hw
    obtain ⟨hne, hconv⟩ := convertAssign_ok hca
    simp only [write, hfind, hrec, hca] at hw
    cases hw
    obtain ⟨-, hk2⟩ := divergesAt_nonempty hd
    obtain ⟨t, key2', rfl⟩ := List.exists_cons_of_ne_nil hk2
    simp only [divergesAt] at hd
    by_cases he : eqFold name t = true
    · rw [if_pos he, hfind] at hd
      simp only [] at hd
      obtain ⟨hk', hk2'⟩ := divergesAt_nonempty hd
      obtain ⟨c, key'', rfl⟩ := List.exists_cons_of_ne_nil hk'
      obtain ⟨d, key2'', rfl⟩ := List.exists_cons_of_ne_nil hk2'
      have hts : eqFold t name = true := (eqFold_symm t name).trans he
      have hft : findField t (setField name w fields) = some (a, ftype, w) := by
        rw [findField_congr hts, findField_setField_self, hfind]
        rfl
      have hft2 : findField t fields = some (a, ftype, fval) := by
        rw [findField_congr hts]
        exact hfind
      have hcont := write_shape hrec
      have hread : read (d :: key2'') w = read (d :: key2'') fval := by
        rcases convertTo_container hcont hconv with rfl | rfl
        · exact ih _ _ hd hrec
        · simp only [read]
          exact ih _ _ hd hrec
      simp only [read, hft, hft2, hread]
    · have he' : eqFold name t = false := by
        revert he
        cases eqFold name t <;> simp
      simp only [read, findField_setField_of_ne he']
  | case15 value name key' fields a ftype fval hfind v1 hrec hnot ih =>
    intro key2 v' hd hw
    simp only [write, hfind, hrec] at hw
    cases hca : convertAssign v1 ftype name with
    | ok w => exact (hnot w hca).elim
    | err e0 => rw [hca] at hw; simp at hw
    | crash m => rw [hca] at hw; simp at hw
  | case16 value name key' fields hfind =>
    intro key2 v' hd hw
    simp [write, hfind] at hw
  | case17 value name key' et e0 hrec ih =>
    intro key2 v' hd hw
    simp [write, hrec] at hw
  | case18 value name key' et m hrec ih =>
    intro key2 v' hd hw
    simp [write, hrec] at hw
  | case19 value name key' et v1 hrec w hca ih =>
    intro key2 v' hd hw
    simp only [write, hrec, hca] at hw
    cases hw
    obtain ⟨-, hk2⟩ := divergesAt_nonempty hd
    obtain ⟨t, key2', rfl⟩ := List.exists_cons_of_ne_nil hk2
    simp only [divergesAt] at hd
    have hnt : eqFold name t = false := by
      revert hd
      cases eqFold name t <;> simp
    have ht : eqFold t name = false := (eqFold_symm t name).trans hnt
    simp [read, findFold, ht]
  | case20 value name key' et v1 hrec hnot ih =>
    intro key2 v' hd hw
    simp only [write, hrec] at hw
    cases hca : convertAssign v1 et name with
    | ok w => exact (hnot w hca).elim
    | err e0 => rw [hca] at hw; simp at hw
    | crash m => rw [hca] at hw; simp at hw
  | case21 value name key' et es k0 v0 hfind e0 hrec ih =>
    intro key2 v' hd hw
    simp [write, hfind, hrec] at hw
  | case22 value name key' et es k0 v0 hfind m hrec ih =>
    intro key2 v' hd hw
    simp [write, hfind, hrec] at hw
  | case23 value name key' et es k0 v0 hfind v1 hrec ih =>
    intro key2 v' hd hw
    simp only [write, hfind, hrec] at hw
    rcases setMapStore_ok hw with ⟨rfl, rfl⟩ | ⟨hne, ha, rfl⟩
    · obtain ⟨-, hk2⟩ := divergesAt_nonempty hd
      obtain ⟨t, key2', rfl⟩ := List.exists_cons_of_ne_nil hk2
      simp only [divergesAt] at hd
      by_cases he : eqFold name t = true
      · rw [if_pos he, hfind] at hd
        simp only [] at hd
        rcases key' with _ | ⟨c, key''⟩
        · rw [divergesAt_nil_left] at hd; cases hd
        · exact absurd (write_shape hrec) (by decide)
      · have he' : eqFold name t = false := by
          revert he
          cases eqFold name t <;> simp
        simp only [read, findFold_delFold_of_ne he']
    obtain ⟨-, hk2⟩ := divergesAt_nonempty hd
    obtain ⟨t, key2', rfl⟩ := List.exists_cons_of_ne_nil hk2
    simp only [divergesAt] at hd
    by_cases he : eqFold name t = true
    · rw [if_pos he, hfind] at hd
      simp only [] at hd
      obtain ⟨hk', hk2'⟩ := divergesAt_nonempty hd
      obtain ⟨c, key'', rfl⟩ := List.exists_cons_of_ne_nil hk'
      obtain ⟨d, key2'', rfl⟩ := List.exists_cons_of_ne_nil hk2'
      have hts : eqFold t name = true := (eqFold_symm t name).trans he
      have hft : findFold t (setFold name (wrapStore v1 et) es)
          = some (k0, wrapStore v1 et) := by
        rw [findFold_congr hts, findFold_setFold_self, hfind]
        rfl
      have hft2 : findFold t es = some (k0, v0) := by
        rw [findFold_congr hts]
        exact hfind
      have hread : read (d :: key2'') (wrapStore v1 et) = read (d :: key2'') v0 := by
        rw [read_wrapStore]
        exact ih _ v1 hd hrec
      simp only [read, hft, hft2, hread]
    · have he' : eqFold name t = false := by
        revert he
        cases eqFold name t <;> simp
      simp only [read, findFold_setFold_of_ne he']
  | case24 value name key' et es hfind e0 hrec ih =>
    intro key2 v' hd hw
    simp [write, hfind, hrec] at hw
  | case25 value name key' et es hfind m hrec ih =>
    intro key2 v' hd hw
    simp [write, hfind, hrec] at hw
  | case26 value name key' et es hfind v1 hrec w hca ih =>
    intro key2 v' hd hw
    simp only [write, hfind, hrec, hca] at hw
    cases hw
    obtain ⟨-, hk2⟩ := divergesAt_nonempty hd
    obtain ⟨t, key2', rfl⟩ := List.exists_cons_of_ne_nil hk2
    simp only [divergesAt] at hd
    by_cases he : eqFold name t = true
    · rw [if_pos he, hfind] at hd
      simp only [] at hd
      cases hd
    · have he' : eqFold name t = false := by
        revert he
        cases eqFold name t <;> simp
      have ht : eqFold t name = false := (eqFold_symm t name).trans he'
      simp only [read]
      cases hf : findFold t es with
      | some x => rw [findFold_snoc_some hf]
      | none =>
        rw [findFold_snoc_none hf]
        simp [ht]
  | case27 value name key' et es hfind v1 hrec hnot ih =>
    intro key2 v' hd hw
    simp only [write, hfind, hrec] at hw
    cases hca : convertAssign v1 et name with
    | ok w => exact (hnot w hca).elim
    | err e0 => rw [hca] at hw; simp at hw
    | crash m => rw [hca] at hw; simp at hw
  | case28 value name tail v hv1 hv2 hv3 hv4 hv5 hv6 hv7 =>
    intro key2 v' hd hw
    cases v with
    | vStr s => rw [divergesAt_vStr] at hd; cases hd
    | vInt k n => rw [divergesAt_vInt] at hd; cases hd
    | vBool b => rw [divergesAt_vBool] at hd; cases hd
    | invalid => rw [divergesAt_invalid] at hd; cases hd
    | vStruct fields => exact absurd rfl (hv5 fields)
    | vMap et data =>
      cases data with
      | nilMap => exact absurd rfl (hv6 et)
      | entries es => exact absurd rfl (hv7 et es)
    | vPtr t inner =>
      cases inner with
      | empty => exact absurd rfl (hv4 t)
      | full x => exact absurd rfl (hv3 t x)
    | vIface inner =>
      cases inner with
      | empty => exact absurd rfl hv2
      | full x => exact absurd rfl (hv1 x)


/-- Claim C8 (confirmed, read-level formulation): after a successful
Write, reading any key2 whose path diverges from the written path at a
Record or Map layer (it addresses a sibling field or entry, or a key
absent before and after) returns exactly what it returned before the
write: only the addressed path and the containers rebuilt along it
change. -/
theorem write_frame (c : config) (key key2 : String) (value w : Val)
    (c' : config)
    (hd : divergesAt (splitKey key) (splitKey key2) c.Data.toInterface = true)
    (hw : c.Write key value = (.ok w, c')) :
    c'.Read key2 = c.Read key2 := by
  unfold config.Write at hw
  cases hr : write (splitKey key) c.Data.toInterface value <;> rw [hr] at hw <;>
    simp [Prod.ext_iff] at hw
  obtain ⟨rfl, rfl⟩ := hw
  show read (splitKey key2) _ = read (splitKey key2) c.Data.toInterface
  simp only [read_toInterface]
  exact (write_frame_aux _ _ _ _ _ hd hr).trans (read_toInterface _ _)

/-- Witness for C8: writing Foo leaves the sibling field Bar readable
unchanged. -/
theorem write_frame_witness :
    config.Read ⟨.vStruct (.cons "Foo" .str (.vStr "z")
        (.cons "Bar" .str (.vStr "b") .nil))⟩ "bar"
      = config.Read twoFieldRoot "bar" :=
  write_frame twoFieldRoot "foo" "bar" (.vStr "z")
    (.vStruct (.cons "Foo" .str (.vStr "z") (.cons "Bar" .str (.vStr "b") .nil)))
    ⟨.vStruct (.cons "Foo" .str (.vStr "z") (.cons "Bar" .str (.vStr "b") .nil))⟩
    (by simp +decide [twoFieldRoot, divergesAt, splitKey, splitChars,
      Val.toInterface, findField, eqFold, lowerChar])
    (by simp +decide [twoFieldRoot, config.Write, write, splitKey, splitChars,
      Val.toInterface, findField, setField, convertTo, eqFold, lowerChar])


theorem typeAt_iface_empty (key : List String) :
    typeAt key (.vIface .empty) = none := by
  rcases key with _ | ⟨a, _ | ⟨b, rest⟩⟩ <;> rw [typeAt.eq_def]

theorem typeAt_ptr_empty (key : List String) (t : Ty) :
    typeAt key (.vPtr t .empty) = none := by
  rcases key with _ | ⟨a, _ | ⟨b, rest⟩⟩ <;> rw [typeAt.eq_def]

theorem typeAt_vStr (key : List String) (s : String) :
    typeAt key (.vStr s) = none := by
  rcases key with _ | ⟨a, _ | ⟨b, rest⟩⟩ <;> rw [typeAt.eq_def]

theorem typeAt_vInt (key : List String) (k : IntKind) (n : Int) :
    typeAt key (.vInt k n) = none := by
  rcases key with _ | ⟨a, _ | ⟨b, rest⟩⟩ <;> rw [typeAt.eq_def]

theorem typeAt_vBool (key : List String) (b : Bool) :
    typeAt key (.vBool b) = none := by
  rcases key with _ | ⟨a, _ | ⟨b, rest⟩⟩ <;> rw [typeAt.eq_def]

theorem typeAt_invalid (key : List String) :
    typeAt key .invalid = none := by
  rcases key with _ | ⟨a, _ | ⟨b, rest⟩⟩ <;> rw [typeAt.eq_def]

theorem typeAt_nil : ∀ v, typeAt [] v = none := by
  intro v
  induction v using indDepth.induct with
  | case1 x ih => simp only [typeAt]; exact ih
  | case2 t x ih => simp only [typeAt]; exact ih
  | case3 v h1 h2 =>
    cases v with
    | vStr s => exact typeAt_vStr _ _
    | vInt k n => exact typeAt_vInt _ _ _
    | vBool b => exact typeAt_vBool _ _
    | invalid => exact typeAt_invalid _
    | vIface inner =>
      cases inner with
      | full x => exact absurd rfl (h1 x)
      | empty => exact typeAt_iface_empty _
    | vPtr t inner =>
      cases inner with
      | full x => exact absurd rfl (h2 t x)
      | empty => exact typeAt_ptr_empty _ _
    | vStruct fields => rw [typeAt.eq_def]
    | vMap et data => cases data <;> rw [typeAt.eq_def]


theorem write_read_roundtrip_aux : ∀ (key : List String) (elem value : Val)
    (T : Ty) (v' : Val),
    value.toInterface = value →
    typeAt key elem = some T →
    convertTo value T = some value →
    write key elem value = .ok v' →
    read key v' = .ok value := by
  intro key elem value
  induction key, elem, value using write.induct with
  | case1 elem value =>
    intro T v' hv ht hc hw
    rw [typeAt_nil] at ht
    cases ht
  | case2 value name key' x e0 hok ih =>
    intro T v' hv ht hc hw
    simp only [typeAt] at ht
    simp only [write, hok] at hw
    cases hw
    rw [read_toInterface]
    exact ih T e0 hv ht hc hok
  | case3 value name key' x hnok ih =>
    intro T v' hv ht hc hw
    simp only [write] at hw
    cases hrec : write (name :: key') x value with
    | ok e0 => exact (hnok e0 hrec).elim
    | err e0 => rw [hrec] at hw; simp at hw
    | crash m => rw [hrec] at hw; simp at hw
  | case4 value name key' e0 hok ih =>
    intro T v' hv ht hc hw
    simp [write] at hok
  | case5 value name key' hnok ih =>
    intro T v' hv ht hc hw
    rw [typeAt_iface_empty] at ht
    cases ht
  | case6 value name key' t x e0 hok te hty ih =>
    intro T v' hv ht hc hw
    simp only [typeAt] at ht
    simp only [write, hok, hty] at hw
    cases hw
    simp only [read]
    exact ih T e0 hv ht hc hok
  | case7 value name key' t x e0 hok hty ih =>
    intro T v' hv ht hc hw
    simp [write, hok, hty] at hw
  | case8 value name key' t x hnok ih =>
    intro T v' hv ht hc hw
    simp only [write] at hw
    cases hrec : write (name :: key') x value with
    | ok e0 => exact (hnok e0 hrec).elim
    | err e0 => rw [hrec] at hw; simp at hw
    | crash m => rw [hrec] at hw; simp at hw
  | case9 value name key' t e0 hok te hty ih =>
    intro T v' hv ht hc hw
    simp [write] at hok
  | case10 value name key' t e0 hok hty ih =>
    intro T v' hv ht hc hw
    simp [write] at hok
  | case11 value name key' t hnok ih =>
    intro T v' hv ht hc hw
    rw [typeAt_ptr_empty] at ht
    cases ht
  | case12 value name key' fields a ftype fval hfind e0 hrec ih =>
    intro T v' hv ht hc hw
    simp [write, hfind, hrec] at hw
  | case13 value name key' fields a ftype fval hfind m hrec ih =>
    intro T v' hv ht hc hw
    simp [write, hfind, hrec] at hw
  | case14 value name key' fields a ftype fval hfind v1 hrec w hca ih =>
    intro T v' hv ht hc hw
    have hconv := (convertAssign_ok hca).2
    simp only [write, hfind, hrec, hca] at hw
    cases hw
    cases key' with
    | nil =>
      simp only [typeAt, hfind, Option.some.injEq] at ht
      rw [← ht] at hc
      simp only [write, hv] at hrec
      cases hrec
      rw [hconv] at hc
      cases hc
      have hf2 : findField name (setField name value fields)
          = some (a, ftype, value) := by
        rw [findField_setField_self, hfind]
        rfl
      simp [read, hf2, hv]
    | cons b key'' =>
      simp only [typeAt, hfind] at ht
      have hcont := write_shape hrec
      have ihres := ih T v1 hv ht hc hrec
      rcases convertTo_container hcont hconv with rfl | rfl
      · have hf2 : findField name (setField name w fields)
            = some (a, ftype, w) := by
          rw [findField_setField_self, hfind]
          rfl
        simp [read, hf2, ihres]
      · have hf2 : findField name (setField name (.vIface (.full v1)) fields)
            = some (a, ftype, Val.vIface (.full v1)) := by
          rw [findField_setField_self, hfind]
          rfl
        simp [read, hf2, ihres]
  | case15 value name key' fields a ftype fval hfind v1 hrec hnot ih =>
    intro T v' hv ht hc hw
    simp only [write, hfind, hrec] at hw
    cases hca : convertAssign v1 ftype name with
    | ok w => exact (hnot w hca).elim
    | err e0 => rw [hca] at hw; simp at hw
    | crash m => rw [hca] at hw; simp at hw
  | case16 value name key' fields hfind =>
    intro T v' hv ht hc hw
    simp [write, hfind] at hw
  | case17 value name key' et e0 hrec ih =>
    intro T v' hv ht hc hw
    simp [write, hrec] at hw
  | case18 value name key' et m hrec ih =>
    intro T v' hv ht hc hw
    simp [write, hrec] at hw
  | case19 value name key' et v1 hrec w hca ih =>
    intro T v' hv ht hc hw
    have hconv := (convertAssign_ok hca).2
    simp only [write, hrec, hca] at hw
    cases hw
    cases key' with
    | nil =>
      simp only [typeAt, Option.some.injEq] at ht
      rw [← ht] at hc
      simp only [write, hv] at hrec
      cases hrec
      rw [hconv] at hc
      cases hc
      simp [read, findFold, eqFold_refl, hv]
    | cons b key'' =>
      simp only [typeAt] at ht
      have hcont := write_shape hrec
      have ihres := ih T v1 hv ht hc hrec
      rcases convertTo_container hcont hconv with rfl | rfl
      · simp [read, findFold, eqFold_refl, ihres]
      · simp [read, findFold, eqFold_refl, ihres]
  | case20 value name key' et v1 hrec hnot ih =>
    intro T v' hv ht hc hw
    simp only [write, hrec] at hw
    cases hca : convertAssign v1 et name with
    | ok w => exact (hnot w hca).elim
    | err e0 => rw [hca] at hw; simp at hw
    | crash m => rw [hca] at hw; simp at hw
  | case21 value name key' et es k0 v0 hfind e0 hrec ih =>
    intro T v' hv ht hc hw
    simp [write, hfind, hrec] at hw
  | case22 value name key' et es k0 v0 hfind m hrec ih =>
    intro T v' hv ht hc hw
    simp [write, hfind, hrec] at hw
  | case23 value name key' et es k0 v0 hfind v1 hrec ih =>
    intro T v' hv ht hc hw
    simp only [write, hfind, hrec] at hw
    rcases setMapStore_ok hw with ⟨rfl, rfl⟩ | ⟨hne, ha, rfl⟩
    · cases key' with
      | nil =>
        simp only [write, hv] at hrec
        cases hrec
        simp [convertTo] at hc
      | cons b key'' => exact absurd (write_shape hrec) (by decide)
    cases key' with
    | nil =>
      simp only [typeAt, Option.some.injEq] at ht
      rw [← ht] at hc
      simp only [write, hv] at hrec
      cases hrec
      have hni : et ≠ Ty.iface := fun h => convertTo_iface_not_self (h ▸ hc)
      have hws : wrapStore value et = value := by simp [wrapStore, hni]
      have hf2 : findFold name (setFold name (wrapStore value et) es)
          = some (k0, wrapStore value et) := by
        rw [findFold_setFold_self, hfind]
        rfl
      rw [hws] at hf2
      simp [read, hws, hf2, hv]
    | cons b key'' =>
      simp only [typeAt, hfind] at ht
      have ihres := ih T v1 hv ht hc hrec
      have hf2 : findFold name (setFold name (wrapStore v1 et) es)
          = some (k0, wrapStore v1 et) := by
        rw [findFold_setFold_self, hfind]
        rfl
      simp [read, hf2, read_wrapStore, ihres]
  | case24 value name key' et es hfind e0 hrec ih =>
    intro T v' hv ht hc hw
    simp [write, hfind, hrec] at hw
  | case25 value name key' et es hfind m hrec ih =>
    intro T v' hv ht hc hw
    simp [write, hfind, hrec] at hw
  | case26 value name key' et es hfind v1 hrec w hca ih =>
    intro T v' hv ht hc hw
    have hconv := (convertAssign_ok hca).2
    simp only [write, hfind, hrec, hca] at hw
    cases hw
    cases key' with
    | nil =>
      simp only [typeAt, Option.some.injEq] at ht
      rw [← ht] at hc
      simp only [write, hv] at hrec
      cases hrec
      rw [hconv] at hc
      cases hc
      have hf2 : findFold name (es.snoc name value) = some (name, value) := by
        rw [findFold_snoc_none hfind]
        simp [eqFold_refl]
      simp [read, hf2, hv]
    | cons b key'' =>
      simp only [typeAt, hfind] at ht
      have hcont := write_shape hrec
      have ihres := ih T v1 hv ht hc hrec
      rcases convertTo_container hcont hconv with rfl | rfl
      · have hf2 : findFold name (es.snoc name w) = some (name, w) := by
          rw [findFold_snoc_none hfind]
          simp [eqFold_refl]
        simp [read, hf2, ihres]
      · have hf2 : findFold name (es.snoc name (.vIface (.full v1)))
            = some (name, Val.vIface (.full v1)) := by
          rw [findFold_snoc_none hfind]
          simp [eqFold_refl]
        simp [read, hf2, ihres]
  | case27 value name key' et es hfind v1 hrec hnot ih =>
    intro T v' hv ht hc hw
    simp only [write, hfind, hrec] at hw
    cases hca : convertAssign v1 et name with
    | ok w => exact (hnot w hca).elim
    | err e0 => rw [hca] at hw; simp at hw
    | crash m => rw [hca] at hw; simp at hw
  | case28 value name tail v hv1 hv2 hv3 hv4 hv5 hv6 hv7 =>
    intro T v' hv ht hc hw
    cases v with
    | vStr s => rw [typeAt_vStr] at ht; cases ht
    | vInt k n => rw [typeAt_vInt] at ht; cases ht
    | vBool b => rw [typeAt_vBool] at ht; cases ht
    | invalid => rw [typeAt_invalid] at ht; cases ht
    | vStruct fields => exact absurd rfl (hv5 fields)
    | vMap et data =>
      cases data with
      | nilMap => exact absurd rfl (hv6 et)
      | entries es => exact absurd rfl (hv7 et es)
    | vPtr t inner =>
      cases inner with
      | empty => exact absurd rfl (hv4 t)
      | full x => exact absurd rfl (hv3 t x)
    | vIface inner =>
      cases inner with
      | empty => exact absurd rfl hv2
      | full x => exact absurd rfl (hv1 x)


/-- Counterexample to claim C1 as stated: the integer 65 is convertible
to the static type string at path foo (Go integer-to-string conversion),
the write succeeds, but the subsequent read returns "A", not 65. -/
theorem c1_counterexample :
    convertTo (.vInt .i 65) .str = some (.vStr "A") ∧
    strFieldRoot.Write "foo" (.vInt .i 65)
      = (.ok (.vStruct (.cons "Foo" .str (.vStr "A") .nil)),
         ⟨.vStruct (.cons "Foo" .str (.vStr "A") .nil)⟩) ∧
    config.Read ⟨.vStruct (.cons "Foo" .str (.vStr "A") .nil)⟩ "foo"
      = .ok (.vStr "A") ∧
    Val.vStr "A" ≠ Val.vInt .i 65 := by
  refine ⟨by decide, ?_, ?_, by decide⟩ <;>
    simp +decide [strFieldRoot, config.Write, config.Read, write, read, splitKey,
      splitChars, Val.toInterface, findField, setField, convertTo, runeString,
      eqFold, lowerChar]

/-- Claim C1 (corrected): for every key path whose addressed position has
static type T, and every value v (carrying no interface wrapper) whose
conversion to T yields exactly v, a successful Write(p, v) followed by
Read(p) returns exactly v. -/
theorem write_read_roundtrip (c : config) (p : String) (v : Val) (T : Ty)
    (w : Val) (c' : config)
    (hv : v.toInterface = v)
    (ht : typeAt (splitKey p) c.Data.toInterface = some T)
    (hc : convertTo v T = some v)
    (hw : c.Write p v = (.ok w, c')) :
    c'.Read p = .ok v := by
  unfold config.Write at hw
  cases hr : write (splitKey p) c.Data.toInterface v <;> rw [hr] at hw <;>
    simp [Prod.ext_iff] at hw
  obtain ⟨rfl, rfl⟩ := hw
  show read (splitKey p) _ = _
  simp only [read_toInterface]
  exact write_read_roundtrip_aux _ _ _ T _ hv ht hc hr

/-- Witness for C1 at the round-trip of the repository's own test:
writing "Hello World!" to the string field Foo and reading it back. -/
theorem write_read_roundtrip_witness :
    config.Read ⟨.vStruct (.cons "Foo" .str (.vStr "Hello World!") .nil)⟩ "foo"
      = .ok (.vStr "Hello World!") :=
  write_read_roundtrip strFieldRoot "foo" (.vStr "Hello World!") .str
    (.vStruct (.cons "Foo" .str (.vStr "Hello World!") .nil))
    ⟨.vStruct (.cons "Foo" .str (.vStr "Hello World!") .nil)⟩
    (by decide)
    (by simp +decide [strFieldRoot, typeAt, splitKey, splitChars, Val.toInterface,
      findField, eqFold, lowerChar])
    (by decide)
    (by simp +decide [strFieldRoot, config.Write, write, splitKey, splitChars,
      Val.toInterface, findField, setField, convertTo, eqFold, lowerChar])

end GoConfig
